import Mathlib

/-!
Verification of the `vectordb` vector-database engine against its design
specification.  Each Rust source function referenced by the claims is given a
shallow embedding below; machine floats (`f32`, `f64`) are modelled by exact
real (ℝ) or rational (ℚ) arithmetic, with `Option ℚ` used where the behaviour
on NaN is itself the property under study.  Out-of-bounds indexing, which
panics in Rust, is modelled by `Except String` exactly at the access the
claims exercise (`data[0]` in `KMeans::update_centroids`); every other index
expression is provably in bounds at its call sites and is modelled by the
total `getD` / `set` list operations.
-/

namespace VectorDb

/-! ## Metadata values and the filter evaluator (src/vector.rs, src/filter.rs)

`MetadataValue` is the tagged union from `vector.rs`; the `f64` payload of the
`Float` variant is modelled as an exact rational (NaN payloads, on which the
derived `PartialEq` is irreflexive, are outside the scope of the claims).
Rust `HashMap`s are modelled as association lists with unique keys; `lookup`
is the map lookup. -/

inductive MetadataValue where
  | str (s : String)
  | int (i : ℤ)
  | float (x : ℚ)
  | bool (b : Bool)
  deriving DecidableEq, Repr

/-- The `$ne` / `$in` / `$nin` operator record from `filter.rs`. -/
structure FilterOperator where
  ne : Option MetadataValue
  in_values : Option (List MetadataValue)
  nin : Option (List MetadataValue)
  deriving DecidableEq, Repr

inductive FilterValue where
  | direct (v : MetadataValue)
  | operator (op : FilterOperator)
  deriving DecidableEq, Repr

abbrev Metadata := List (String × MetadataValue)

abbrev WhereFilter := List (String × FilterValue)

/-- `matches_filter` from `filter.rs`, translated clause by clause.  The Rust
loop over the filter's entries becomes structural recursion; `return false`
becomes the literal `false` and `continue` becomes the recursive call on the
remaining clauses.  Note that in the `Operator` arm every arm of the `$ne`
match (and of the `$in` match) leaves the loop iteration, so `$in` is reached
only when `$ne` is absent and `$nin` only when both `$ne` and `$in` are
absent, exactly as in the source. -/
def matches_filter (metadata : Metadata) : WhereFilter → Bool
  | [] => true
  | (key, filter_value) :: rest =>
    match filter_value with
    | .direct expected =>
      match metadata.lookup key with
      | some val => if val = expected then matches_filter metadata rest else false
      | none => false
    | .operator op =>
      match op.ne with
      | some ne_val =>
        match metadata.lookup key with
        | some val => if val = ne_val then false else matches_filter metadata rest
        | none => false
      | none =>
        match op.in_values with
        | some in_vals =>
          match metadata.lookup key with
          | some val => if in_vals.contains val then matches_filter metadata rest else false
          | none => false
        | none =>
          match op.nin with
          | some nin_vals =>
            match metadata.lookup key with
            | some val => if nin_vals.contains val then false else matches_filter metadata rest
            | none => matches_filter metadata rest
          | none => matches_filter metadata rest

/-- The per-field semantics asserted by the specification (claim C1): inside
an `Operator`, all present conditions apply conjunctively. -/
def clauseHoldsClaim (mv : Option MetadataValue) : FilterValue → Bool
  | .direct expected => mv = some expected
  | .operator op =>
    (match op.ne with
     | some v => match mv with | some w => decide (w ≠ v) | none => false
     | none => true) &&
    (match op.in_values with
     | some s => match mv with | some w => s.contains w | none => false
     | none => true) &&
    (match op.nin with
     | some s => match mv with | some w => !s.contains w | none => true
     | none => true)

/-- The whole-filter semantics asserted by claim C1: every top-level clause
holds, with operator conditions conjunctive. -/
def matchesFilterClaim (metadata : Metadata) (filter : WhereFilter) : Bool :=
  filter.all fun kv => clauseHoldsClaim (metadata.lookup kv.1) kv.2

/-- Boolean per-field semantics actually implemented by `matches_filter`:
the first operator present in the order `$ne`, `$in`, `$nin` decides the
field (proof helper; see `ClauseHoldsFirstOp` for the propositional form). -/
def clauseFirstOpB (mv : Option MetadataValue) : FilterValue → Bool
  | .direct expected => mv = some expected
  | .operator op =>
    match op.ne with
    | some v => match mv with | some w => decide (w ≠ v) | none => false
    | none =>
      match op.in_values with
      | some s => match mv with | some w => s.contains w | none => false
      | none =>
        match op.nin with
        | some s => match mv with | some w => !s.contains w | none => true
        | none => true

/-- The per-field semantics the code actually implements (amended claim C1):
the first operator present in the order `$ne`, `$in`, `$nin` decides the
field, and later operators in that order are ignored. -/
def ClauseHoldsFirstOp (mv : Option MetadataValue) : FilterValue → Prop
  | .direct expected => mv = some expected
  | .operator op =>
    match op.ne with
    | some v => ∃ w, mv = some w ∧ w ≠ v
    | none =>
      match op.in_values with
      | some s => ∃ w, mv = some w ∧ w ∈ s
      | none =>
        match op.nin with
        | some s => ∀ w, mv = some w → w ∉ s
        | none => True

/-- Amended whole-filter semantics: conjunction over the top-level clauses of
the first-present-operator field semantics; the empty filter matches all. -/
def MatchesFirstOp (metadata : Metadata) (filter : WhereFilter) : Prop :=
  ∀ kv ∈ filter, ClauseHoldsFirstOp (metadata.lookup kv.1) kv.2

/-- One step of `matches_filter` factors as the head clause (under the
first-present-operator semantics) conjoined with the rest. -/
theorem matches_filter_cons (metadata : Metadata) (key : String) (fv : FilterValue)
    (rest : WhereFilter) :
    matches_filter metadata ((key, fv) :: rest) =
      (clauseFirstOpB (metadata.lookup key) fv && matches_filter metadata rest) := by
  cases fv with
  | direct expected =>
    cases hmv : metadata.lookup key with
    | none => simp [matches_filter, clauseFirstOpB, hmv]
    | some val =>
      by_cases hve : val = expected <;>
        simp [matches_filter, clauseFirstOpB, hmv, hve]
  | operator op =>
    cases hne : op.ne with
    | some ne_val =>
      cases hmv : metadata.lookup key with
      | none => simp [matches_filter, clauseFirstOpB, hmv, hne]
      | some val =>
        by_cases hve : val = ne_val <;>
          simp [matches_filter, clauseFirstOpB, hmv, hne, hve]
    | none =>
      cases hin : op.in_values with
      | some in_vals =>
        cases hmv : metadata.lookup key with
        | none => simp [matches_filter, clauseFirstOpB, hmv, hne, hin]
        | some val =>
          by_cases hc : in_vals.contains val <;>
            simp [matches_filter, clauseFirstOpB, hmv, hne, hin, hc]
      | none =>
        cases hnin : op.nin with
        | some nin_vals =>
          cases hmv : metadata.lookup key with
          | none => simp [matches_filter, clauseFirstOpB, hmv, hne, hin, hnin]
          | some val =>
            by_cases hc : nin_vals.contains val <;>
              simp [matches_filter, clauseFirstOpB, hmv, hne, hin, hnin, hc]
        | none => simp [matches_filter, clauseFirstOpB, hne, hin, hnin]

/-- The Boolean and propositional forms of the first-present-operator clause
semantics agree. -/
theorem clauseFirstOpB_iff (mv : Option MetadataValue) (fv : FilterValue) :
    clauseFirstOpB mv fv = true ↔ ClauseHoldsFirstOp mv fv := by
  cases fv with
  | direct expected => simp [clauseFirstOpB, ClauseHoldsFirstOp]
  | operator op =>
    cases hne : op.ne with
    | some ne_val =>
      cases mv <;> simp [clauseFirstOpB, ClauseHoldsFirstOp, hne]
    | none =>
      cases hin : op.in_values with
      | some in_vals =>
        cases mv <;> simp [clauseFirstOpB, ClauseHoldsFirstOp, hne, hin]
      | none =>
        cases hnin : op.nin with
        | some nin_vals =>
          cases mv <;> simp [clauseFirstOpB, ClauseHoldsFirstOp, hne, hin, hnin]
        | none =>
          cases mv <;> simp [clauseFirstOpB, ClauseHoldsFirstOp, hne, hin, hnin]

/-- C1 (counterexample): the claim says that when `$in` and `$nin` are both
present all of them must hold, so a value lying in both lists must NOT match;
the code stops at the `$in` check (its `continue` leaves the whole clause) and
returns `true`. -/
theorem c1_filter_counterexample :
    matches_filter [("k", .int 1)]
        [("k", .operator ⟨none, some [.int 1], some [.int 1]⟩)] = true ∧
      matchesFilterClaim [("k", .int 1)]
        [("k", .operator ⟨none, some [.int 1], some [.int 1]⟩)] = false := by
  decide

/-- C1 (amended): `matches_filter` returns `true` iff every top-level clause
holds, where a `Direct` clause requires the field present and equal, and an
`Operator` clause is decided by the FIRST present condition in the order
`$ne`, `$in`, `$nin` (later conditions in that order are ignored): `$ne v`
requires the field present and ≠ v; otherwise `$in S` requires the field
present and ∈ S; otherwise `$nin S` requires the field absent or ∉ S; an
operator with no conditions holds.  The empty filter matches everything. -/
theorem c1_filter_iff (metadata : Metadata) (filter : WhereFilter) :
    matches_filter metadata filter = true ↔ MatchesFirstOp metadata filter := by
  induction filter with
  | nil => simp [matches_filter, MatchesFirstOp]
  | cons kv rest ih =>
    obtain ⟨key, fv⟩ := kv
    rw [matches_filter_cons, Bool.and_eq_true, clauseFirstOpB_iff, ih]
    constructor
    · rintro ⟨hhead, hrest⟩ kv' hkv'
      rcases List.mem_cons.1 hkv' with hkv' | hkv'
      · subst hkv'; exact hhead
      · exact hrest kv' hkv'
    · intro h
      exact ⟨h (key, fv) (List.mem_cons_self _ _),
        fun kv' hkv' => h kv' (List.mem_cons_of_mem _ hkv')⟩

/-- C1 (witness for the amended theorem): evaluated on a concrete metadata
map and filter with both `$in` and `$nin` present. -/
theorem c1_filter_iff_witness :
    MatchesFirstOp [("k", .int 1)]
      [("k", .operator ⟨none, some [.int 1], some [.int 1]⟩)] :=
  (c1_filter_iff [("k", .int 1)]
      [("k", .operator ⟨none, some [.int 1], some [.int 1]⟩)]).mp (by decide)

/-! ## Distance kernel (src/distance.rs)

`f32` vectors are modelled as lists of reals.  `dot_product` in the source
unrolls the accumulation 4-way purely for SIMD; over the reals this computes
the plain sum of elementwise products (the panic on a second argument shorter
than the first is not modelled — every engine call site passes equal-length
vectors). -/

noncomputable section

abbrev Vec := List ℝ

def dot_product (a b : Vec) : ℝ := (List.zipWith (fun x y => x * y) a b).sum

def cosine_distance (a b : Vec) : ℝ := 1 - dot_product a b

/-- The sum `Σ vᵢ²` computed by the first line of `normalize_l2`. -/
def sq_sum (v : Vec) : ℝ := (v.map fun x => x * x).sum

/-- The L2 norm of a stored vector (specification observable). -/
def l2norm (v : Vec) : ℝ := Real.sqrt (sq_sum v)

/-- `normalize_l2` from `distance.rs`: multiply every component by
`1 / norm` when `norm > 1e-10`, otherwise leave the vector unchanged. -/
def normalize_l2 (v : Vec) : Vec :=
  let norm := Real.sqrt (sq_sum v)
  if 1e-10 < norm then v.map fun x => x * (1 / norm) else v

theorem sq_sum_nonneg (v : Vec) : 0 ≤ sq_sum v := by
  refine List.sum_nonneg fun x hx => ?_
  obtain ⟨y, _, rfl⟩ := List.mem_map.1 hx
  exact mul_self_nonneg y

theorem sq_sum_map_mul (v : Vec) (c : ℝ) :
    sq_sum (v.map fun x => x * c) = sq_sum v * c ^ 2 := by
  induction v with
  | nil => simp [sq_sum]
  | cons x xs ih =>
    simp only [List.map_cons, sq_sum, List.sum_cons] at *
    rw [ih]; ring

theorem normalize_l2_length (v : Vec) : (normalize_l2 v).length = v.length := by
  simp only [normalize_l2]
  split <;> simp

/-- When the computed norm exceeds the `1e-10` guard the result of
`normalize_l2` has L2 norm exactly 1 (in exact arithmetic); otherwise the
vector is returned unchanged. -/
theorem l2norm_normalize_l2 (v : Vec) :
    (1e-10 < l2norm v ∧ l2norm (normalize_l2 v) = 1) ∨
      (l2norm v ≤ 1e-10 ∧ normalize_l2 v = v) := by
  unfold normalize_l2 l2norm
  by_cases h : (1e-10 : ℝ) < Real.sqrt (sq_sum v)
  · left
    refine ⟨h, ?_⟩
    rw [if_pos h]
    have hs_pos : 0 < Real.sqrt (sq_sum v) := lt_trans (by norm_num) h
    have hsq : Real.sqrt (sq_sum v) ^ 2 = sq_sum v := Real.sq_sqrt (sq_sum_nonneg v)
    have hpos : 0 < sq_sum v := Real.sqrt_pos.mp hs_pos
    rw [sq_sum_map_mul, div_pow, one_pow, hsq, mul_one_div, div_self (ne_of_gt hpos)]
    exact Real.sqrt_one
  · right
    exact ⟨le_of_not_lt h, if_neg h⟩

/-! ## K-means trainer (src/kmeans.rs)

The `rand::thread_rng` draws are abstracted into a `RandOracle`: `firstPick`
selects the first centroid (`choose` on `0..len`, modelled as `firstPick`
reduced modulo the data length so that it denotes a valid index) and
`unif round` is the value of `rng.gen::<f32>()` in round `round` of the
k-means++ seeding.  `min_by(...).unwrap()` panics on an empty iterator in
Rust; at every call site reached with nonempty data the centroid list is
nonempty, and the model returns a default in the unreachable empty case.  The
`data[0]` access in `update_centroids`, which DOES panic when `fit` is called
on an empty dataset, is modelled by `Except.error`. -/

structure RandOracle where
  firstPick : ℕ
  unif : ℕ → ℝ

structure KMeans where
  centroids : List Vec
  n_clusters : ℕ
  max_iter : ℕ
  tolerance : ℝ

def KMeans.new (n_clusters : ℕ) : KMeans :=
  { centroids := [], n_clusters := n_clusters, max_iter := 50, tolerance := 1e-4 }

/-- The cumulative-sum selection inside `init_centroids`: `r` is decreased by
each distance in turn and the scan stops at the first index where it reaches
zero; if it never does, `next_idx` keeps its initial value 0. -/
def cumulPickAux (r : ℝ) (i : ℕ) : List ℝ → Option ℕ
  | [] => none
  | d :: rest => if r - d ≤ 0 then some i else cumulPickAux (r - d) (i + 1) rest

def cumulPick (r : ℝ) (ds : List ℝ) : ℕ := (cumulPickAux r 0 ds).getD 0

/-- Distance from `point` to its nearest existing centroid (the inner
`min_by` of the k-means++ loop). -/
def minDistAux (p : Vec) (best : ℝ) : List Vec → ℝ
  | [] => best
  | c :: rest => minDistAux p (min best (cosine_distance p c)) rest

def minDistTo (p : Vec) : List Vec → ℝ
  | [] => 0
  | c :: rest => minDistAux p (cosine_distance p c) rest

/-- First index of minimal cosine distance (Rust `min_by` keeps the first of
equally minimal elements); `none` on an empty centroid list, where the source
would panic on `unwrap` (or return 0 from `predict`'s `unwrap_or(0)`). -/
def argminAux (p : Vec) (i best : ℕ) (bestDist : ℝ) : List Vec → ℕ
  | [] => best
  | c :: rest =>
    if cosine_distance p c < bestDist then argminAux p (i + 1) i (cosine_distance p c) rest
    else argminAux p (i + 1) best bestDist rest

def argminIdx (p : Vec) : List Vec → Option ℕ
  | [] => none
  | c :: rest => some (argminAux p 1 0 (cosine_distance p c) rest)

/-- The `for _ in 1..self.n_clusters` seeding rounds of `init_centroids`. -/
def initRounds (o : RandOracle) (data : List Vec) : ℕ → ℕ → List Vec → List Vec
  | 0, _, acc => acc
  | n + 1, round, acc =>
    let distances := data.map fun point => minDistTo point acc
    let total := distances.sum
    let r := o.unif round * total
    let next_idx := cumulPick r distances
    initRounds o data n (round + 1) (acc ++ [data.getD next_idx []])

/-- `init_centroids`: on empty data it returns with the centroids untouched
(the `clear` is below the early return); otherwise it clears them, pushes a
randomly chosen first centroid and runs the k-means++ rounds. -/
def KMeans.init_centroids (o : RandOracle) (km : KMeans) (data : List Vec) : List Vec :=
  if data.isEmpty then km.centroids
  else initRounds o data (km.n_clusters - 1) 1 [data.getD (o.firstPick % data.length) []]

def KMeans.assign_clusters (km : KMeans) (data : List Vec) : List ℕ :=
  data.map fun point => (argminIdx point km.centroids).getD 0

/-- Componentwise `new_centroids[cluster][i] += val` over `i < point.len()`:
the prefix of the centroid is increased by the point, the tail (empty at
every engine call site, where all dimensions agree) is kept. -/
def addInto (c p : Vec) : Vec :=
  List.zipWith (fun x y => x + y) c p ++ c.drop p.length

/-- One step of the accumulation loop of `update_centroids`. -/
def accumStep (acc : List Vec × List ℕ) (pc : Vec × ℕ) : List Vec × List ℕ :=
  (acc.1.set pc.2 (addInto (acc.1.getD pc.2 []) pc.1),
   acc.2.set pc.2 (acc.2.getD pc.2 0 + 1))

/-- `update_centroids` from `kmeans.rs`.  `data[0]` on an empty slice is the
index-out-of-bounds panic, modelled as `Except.error`.  Zero-initialised
centroid sums are accumulated per assigned cluster, clusters with a positive
count are divided by it, and the shift is the summed cosine distance between
old and new centroids. -/
def KMeans.update_centroids (km : KMeans) (data : List Vec) (assignments : List ℕ) :
    Except String (KMeans × ℝ) :=
  match data with
  | [] => .error "index out of bounds: the len is 0 but the index is 0"
  | d0 :: _ =>
    let dim := d0.length
    let start : List Vec × List ℕ :=
      (List.replicate km.n_clusters (List.replicate dim (0 : ℝ)),
       List.replicate km.n_clusters 0)
    let acc := (data.zip assignments).foldl accumStep start
    let new_centroids :=
      List.zipWith (fun c (count : ℕ) => if 0 < count then c.map fun x => x / (count : ℝ) else c)
        acc.1 acc.2
    let total_shift :=
      ((km.centroids.zip new_centroids).map fun pr => cosine_distance pr.1 pr.2).sum
    .ok ({ km with centroids := new_centroids }, total_shift)

/-- The Lloyd iteration loop of `fit` (`for _ in 0..max_iter`, breaking when
the shift falls below the tolerance). -/
def KMeans.fitLoop (data : List Vec) : ℕ → KMeans → Except String KMeans
  | 0, km => .ok km
  | n + 1, km =>
    let assignments := km.assign_clusters data
    match km.update_centroids data assignments with
    | .error e => .error e
    | .ok (km', shift) =>
      if shift < km'.tolerance then .ok km' else KMeans.fitLoop data n km'

/-- `fit` from `kmeans.rs`: shrink `n_clusters` to the data size if needed,
seed with k-means++, then iterate. -/
def KMeans.fit (o : RandOracle) (km : KMeans) (data : List Vec) : Except String KMeans :=
  let km1 := if data.length < km.n_clusters then { km with n_clusters := data.length } else km
  let km2 := { km1 with centroids := km1.init_centroids o data }
  KMeans.fitLoop data km2.max_iter km2

def KMeans.predict (km : KMeans) (point : Vec) : ℕ :=
  (argminIdx point km.centroids).getD 0

/-- C3: the spec says fitting on an empty dataset is a no-op, but
`fit(&[])` reaches `update_centroids`, whose first statement indexes
`data[0]` on the empty slice: the call panics instead of returning.  Shown
here on the default state `KMeans::new(2)` (`max_iter = 50 > 0`, so the loop
body runs at least once). -/
theorem c3_fit_empty_panics (o : RandOracle) :
    KMeans.fit o (KMeans.new 2) [] =
      .error "index out of bounds: the len is 0 but the index is 0" := rfl

/-! ### The centroid-update invariant (claim C4) -/

theorem getD_set_self {α : Type} (l : List α) (i : ℕ) (x d : α) (h : i < l.length) :
    (l.set i x).getD i d = x := by
  simp [List.getD, List.getElem?_set_self, h]

theorem getD_set_ne {α : Type} (l : List α) (i j : ℕ) (x d : α) (h : i ≠ j) :
    (l.set i x).getD j d = l.getD j d := by
  simp [List.getD, List.getElem?_set_ne h]

theorem getD_replicate {α : Type} (n j : ℕ) (x d : α) (h : j < n) :
    (List.replicate n x).getD j d = x := by
  simp [List.getD, List.getElem?_replicate, h]

theorem getD_zipWith {α β γ : Type} (f : α → β → γ) (as : List α) (bs : List β) (j : ℕ)
    (da : α) (db : β) (dc : γ) (hj : j < as.length) (hlen : as.length = bs.length) :
    (List.zipWith f as bs).getD j dc = f (as.getD j da) (bs.getD j db) := by
  induction as generalizing bs j with
  | nil => simp at hj
  | cons a as ih =>
    cases bs with
    | nil => simp at hlen
    | cons b bs =>
      cases j with
      | zero => simp
      | succ j =>
        simp only [List.zipWith_cons_cons, List.getD_cons_succ]
        exact ih bs j (by simpa using hj) (by simpa using hlen)

theorem accum_lengths (rows : List (Vec × ℕ)) :
    ∀ ncs counts, (rows.foldl accumStep (ncs, counts)).1.length = ncs.length ∧
      (rows.foldl accumStep (ncs, counts)).2.length = counts.length := by
  induction rows with
  | nil => intro ncs counts; simp
  | cons pc rest ih =>
    intro ncs counts
    simp only [List.foldl_cons, accumStep]
    exact ⟨by rw [(ih _ _).1, List.length_set], by rw [(ih _ _).2, List.length_set]⟩

/-- The accumulation loop of `update_centroids` computes, per cluster, the
running componentwise sum of the assigned points and their count. -/
theorem accum_getD (rows : List (Vec × ℕ)) :
    ∀ ncs counts j, ncs.length = counts.length → (∀ pr ∈ rows, pr.2 < counts.length) →
      j < counts.length →
      (rows.foldl accumStep (ncs, counts)).1.getD j [] =
          (rows.filter fun pr => pr.2 = j).foldl (fun c pr => addInto c pr.1) (ncs.getD j []) ∧
        (rows.foldl accumStep (ncs, counts)).2.getD j 0 =
          counts.getD j 0 + (rows.filter fun pr => pr.2 = j).length := by
  induction rows with
  | nil => intro ncs counts j _ _ _; simp
  | cons pc rest ih =>
    intro ncs counts j hlen hrows hj
    obtain ⟨p, a⟩ := pc
    have ha : a < counts.length := hrows (p, a) (List.mem_cons_self _ _)
    have ha' : a < ncs.length := hlen ▸ ha
    simp only [List.foldl_cons, accumStep]
    have hlen' : (ncs.set a (addInto (ncs.getD a []) p)).length =
        (counts.set a (counts.getD a 0 + 1)).length := by
      simp [List.length_set, hlen]
    have hrows' : ∀ pr ∈ rest, pr.2 < (counts.set a (counts.getD a 0 + 1)).length := by
      intro pr hpr
      simpa [List.length_set] using hrows pr (List.mem_cons_of_mem _ hpr)
    have hj' : j < (counts.set a (counts.getD a 0 + 1)).length := by
      simpa [List.length_set] using hj
    have hrec := ih _ _ j hlen' hrows' hj'
    by_cases haj : a = j
    · subst haj
      rw [List.filter_cons_of_pos (by simp)]
      refine ⟨?_, ?_⟩
      · rw [hrec.1, getD_set_self _ _ _ _ ha', List.foldl_cons]
      · rw [hrec.2, getD_set_self _ _ _ _ ha, List.length_cons]
        omega
    · rw [List.filter_cons_of_neg (by simp [haj])]
      refine ⟨?_, ?_⟩
      · rw [hrec.1, getD_set_ne _ _ _ _ _ haj]
      · rw [hrec.2, getD_set_ne _ _ _ _ _ haj]

/-- The points of `data` assigned to cluster `j` (specification observable
for claim C4). -/
def clusterPoints (data : List Vec) (assignments : List ℕ) (j : ℕ) : List Vec :=
  ((data.zip assignments).filter fun pr => pr.2 = j).map Prod.fst

/-- Componentwise sum of a family of points, starting from the zero vector of
dimension `dim` (the accumulator `update_centroids` uses). -/
def vsum (dim : ℕ) (ps : List Vec) : Vec :=
  ps.foldl addInto (List.replicate dim 0)

/-- A concrete k-means state with two centroids, used to exercise
`update_centroids` on an iteration where cluster 1 receives no point. -/
def km4 : KMeans :=
  { centroids := [[1], [2]], n_clusters := 2, max_iter := 50, tolerance := 1e-4 }

/-- C4 (counterexample): with previous centroids `[[1], [2]]` and the single
point `[4]` assigned to cluster 0, cluster 1 receives no point; the claim
says its centroid retains the previous value `[2]`, but `update_centroids`
rebuilds all centroids from zero-initialised sums, so it becomes `[0]`. -/
theorem c4_counterexample :
    Except.map (fun pr => pr.1.centroids)
        (km4.update_centroids [[4]] [0]) = .ok [[4], [0]] ∧
      [[(4 : ℝ)], [0]] ≠ [[(4 : ℝ)], [2]] := by
  constructor
  · simp only [KMeans.update_centroids, km4, Except.map]
    norm_num [accumStep, addInto, List.getD, List.replicate_succ]
  · norm_num

/-- C4 (amended): in each Lloyd iteration, a centroid whose cluster received
at least one point becomes the componentwise sum of its assigned points
divided by their count, and a centroid whose cluster received no point
becomes the ZERO vector of the data's dimension (it does not retain its
previous value). -/
theorem c4_update_centroids_mean (km : KMeans) (d0 : Vec) (drest : List Vec)
    (assignments : List ℕ)
    (hassign : ∀ a ∈ assignments, a < km.n_clusters) :
    ∃ km' shift,
      km.update_centroids (d0 :: drest) assignments = .ok (km', shift) ∧
        km'.centroids.length = km.n_clusters ∧
        ∀ j, j < km.n_clusters →
          km'.centroids.getD j [] =
            if 0 < (clusterPoints (d0 :: drest) assignments j).length then
              (vsum d0.length (clusterPoints (d0 :: drest) assignments j)).map
                fun x => x / ((clusterPoints (d0 :: drest) assignments j).length : ℝ)
            else List.replicate d0.length 0 := by
  simp only [KMeans.update_centroids]
  refine ⟨_, _, rfl, ?_, ?_⟩
  · have hl := accum_lengths ((d0 :: drest).zip assignments)
      (List.replicate km.n_clusters (List.replicate d0.length 0))
      (List.replicate km.n_clusters 0)
    simp [List.length_zipWith, hl.1, hl.2]
  · intro j hj
    have hl := accum_lengths ((d0 :: drest).zip assignments)
      (List.replicate km.n_clusters (List.replicate d0.length 0))
      (List.replicate km.n_clusters 0)
    have hrows : ∀ pr ∈ (d0 :: drest).zip assignments,
        pr.2 < (List.replicate km.n_clusters (0 : ℕ)).length := by
      intro pr hpr
      simpa using hassign pr.2 (List.of_mem_zip hpr).2
    have hacc := accum_getD ((d0 :: drest).zip assignments)
      (List.replicate km.n_clusters (List.replicate d0.length 0))
      (List.replicate km.n_clusters 0) j (by simp) hrows (by simpa using hj)
    rw [getD_zipWith _ _ _ j [] 0 _ (by rw [hl.1]; simpa using hj) (by rw [hl.1, hl.2]; simp)]
    rw [hacc.1, hacc.2]
    rw [getD_replicate _ _ _ _ hj, getD_replicate _ _ _ _ hj]
    have hcp : clusterPoints (d0 :: drest) assignments j =
        (((d0 :: drest).zip assignments).filter fun pr => pr.2 = j).map Prod.fst := rfl
    have hfold : (((d0 :: drest).zip assignments).filter fun pr => pr.2 = j).foldl
          (fun c pr => addInto c pr.1) (List.replicate d0.length 0) =
        vsum d0.length (clusterPoints (d0 :: drest) assignments j) := by
      rw [hcp, vsum, List.foldl_map]
    have hcnt : (clusterPoints (d0 :: drest) assignments j).length =
        (((d0 :: drest).zip assignments).filter fun pr => pr.2 = j).length := by
      rw [hcp, List.length_map]
    rw [hfold, Nat.zero_add, ← hcnt]
    by_cases hpos : 0 < (clusterPoints (d0 :: drest) assignments j).length
    · rw [if_pos hpos, if_pos hpos]
    · rw [if_neg hpos, if_neg hpos]
      have hemp : clusterPoints (d0 :: drest) assignments j = [] :=
        List.length_eq_zero.mp (by omega)
      rw [hemp, vsum, List.foldl_nil]

/-- C4 (witness): the amended theorem evaluated at the concrete state of the
counterexample. -/
theorem c4_update_centroids_mean_witness :
    ∃ km' shift,
      km4.update_centroids [[4]] [0] = .ok (km', shift) ∧
        km'.centroids.length = km4.n_clusters ∧
        ∀ j, j < km4.n_clusters →
          km'.centroids.getD j [] =
            if 0 < (clusterPoints [[4]] [0] j).length then
              (vsum 1 (clusterPoints [[4]] [0] j)).map
                fun x => x / ((clusterPoints [[4]] [0] j).length : ℝ)
            else List.replicate 1 0 :=
  c4_update_centroids_mean km4 [4] [] [0] (by intro a ha; simp [km4] at ha ⊢; omega)

/-! ## IVF index (src/ivf.rs) -/

structure IVFIndex where
  centroids : List Vec
  inverted_lists : List (List String)
  n_clusters : ℕ
  n_probe : ℕ

def IVFIndex.new (n_clusters : ℕ) : IVFIndex :=
  { centroids := [], inverted_lists := List.replicate n_clusters [],
    n_clusters := n_clusters, n_probe := 4 }

/-- `with_n_probe` from `ivf.rs`: `self.n_probe = n_probe.min(self.n_clusters)`. -/
def IVFIndex.with_n_probe (idx : IVFIndex) (n_probe : ℕ) : IVFIndex :=
  { idx with n_probe := min n_probe idx.n_clusters }

def IVFIndex.is_built (idx : IVFIndex) : Bool := !idx.centroids.isEmpty

/-- `build` from `ivf.rs`: no-op on empty data; otherwise clamp the cluster
count, fit k-means on the embeddings and assign every id to the inverted list
of its predicted cluster (the `inverted_lists[cluster]` write is in bounds
because `predict` returns an index below the number of fitted centroids). -/
def IVFIndex.build (o : RandOracle) (idx : IVFIndex) (data : List (String × Vec)) :
    Except String IVFIndex :=
  if data.isEmpty then .ok idx
  else
    let embeddings := data.map Prod.snd
    let actual_clusters := max (min idx.n_clusters (embeddings.length / 10)) 1
    match KMeans.fit o (KMeans.new actual_clusters) embeddings with
    | .error e => .error e
    | .ok km =>
      let lists := data.foldl
        (fun ls pr => ls.set (km.predict pr.2) (ls.getD (km.predict pr.2) [] ++ [pr.1]))
        (List.replicate actual_clusters [])
      .ok { idx with centroids := km.centroids, inverted_lists := lists }

def IVFIndex.rebuild (o : RandOracle) (idx : IVFIndex) (data : List (String × Vec)) :
    Except String IVFIndex :=
  idx.build o data

/-- Stable insertion sort by a real-valued key, modelling the stable
`sort_by` on distances (over the reals `partial_cmp` is total, so the
`unwrap` never panics here; NaN behaviour is studied separately). -/
def insertSorted {α : Type} (key : α → ℝ) (x : α) : List α → List α
  | [] => [x]
  | y :: ys => if key x ≤ key y then x :: y :: ys else y :: insertSorted key x ys

def sortByKey {α : Type} (key : α → ℝ) (l : List α) : List α :=
  l.foldr (insertSorted key) []

/-- `search_candidates` from `ivf.rs`: empty if not built, otherwise sort the
clusters by distance of their centroid to the query and concatenate the
inverted lists of the `min(n_probe, #centroids)` closest clusters. -/
def IVFIndex.search_candidates (idx : IVFIndex) (query : Vec) : List String :=
  if idx.centroids.isEmpty then []
  else
    let distances := idx.centroids.enum.map fun pr => (pr.1, cosine_distance query pr.2)
    let sorted := sortByKey Prod.snd distances
    let probe_count := min idx.n_probe sorted.length
    ((sorted.take probe_count).map fun pr => idx.inverted_lists.getD pr.1 []).flatten

/-- C8 (counterexample): the claim says `with_n_probe(P)` clamps `P` into
`[1, n_clusters]`, so `with_n_probe(0)` should yield 1; the code only clamps
from above with `min` and yields 0. -/
theorem c8_with_n_probe_counterexample :
    ((IVFIndex.new 4).with_n_probe 0).n_probe = 0 ∧
      ((IVFIndex.new 4).with_n_probe 0).n_probe ≠ max 1 (min 0 (IVFIndex.new 4).n_clusters) := by
  constructor <;> simp [IVFIndex.with_n_probe, IVFIndex.new]

/-- C8 (amended): `with_n_probe(P)` sets `n_probe = min(P, n_clusters)`:
the upper clamp of the claim holds but there is no lower clamp, so the result
lies in `[1, n_clusters]` only when `P ≥ 1` and `n_clusters ≥ 1` (and
`with_n_probe(0)` yields 0, not 1). -/
theorem c8_with_n_probe_min (idx : IVFIndex) (p : ℕ) :
    (idx.with_n_probe p).n_probe = min p idx.n_clusters ∧
      (idx.with_n_probe p).n_probe ≤ idx.n_clusters ∧
      (1 ≤ p → 1 ≤ idx.n_clusters → 1 ≤ (idx.with_n_probe p).n_probe) := by
  refine ⟨rfl, Nat.min_le_right _ _, fun hp hk => ?_⟩
  simp only [IVFIndex.with_n_probe]
  omega

/-- C8 (witness): the amended clamp evaluated at `P = 2`, `n_clusters = 4`. -/
theorem c8_with_n_probe_min_witness :
    1 ≤ ((IVFIndex.new 4).with_n_probe 2).n_probe :=
  (c8_with_n_probe_min (IVFIndex.new 4) 2).2.2 (by norm_num) (by simp [IVFIndex.new])

/-! ### `fit` and `build` succeed on nonempty data (used by claims C5, C6) -/

theorem update_centroids_cons (km : KMeans) (d0 : Vec) (drest : List Vec)
    (assignments : List ℕ) :
    ∃ km' shift, km.update_centroids (d0 :: drest) assignments = .ok (km', shift) :=
  ⟨_, _, rfl⟩

theorem fitLoop_ok (d0 : Vec) (drest : List Vec) :
    ∀ n km, ∃ km', KMeans.fitLoop (d0 :: drest) n km = .ok km' := by
  intro n
  induction n with
  | zero => intro km; exact ⟨km, rfl⟩
  | succ n ih =>
    intro km
    obtain ⟨km', shift, hupd⟩ :=
      update_centroids_cons km d0 drest (km.assign_clusters (d0 :: drest))
    by_cases hs : shift < km'.tolerance
    · exact ⟨km', by simp only [KMeans.fitLoop, hupd]; simp [hs]⟩
    · obtain ⟨r, hr⟩ := ih km'
      exact ⟨r, by simp only [KMeans.fitLoop, hupd]; simp [hs, hr]⟩

theorem fit_ok (o : RandOracle) (km : KMeans) (d0 : Vec) (drest : List Vec) :
    ∃ km', KMeans.fit o km (d0 :: drest) = .ok km' := by
  simp only [KMeans.fit]
  exact fitLoop_ok d0 drest _ _

theorem build_ok (o : RandOracle) (idx : IVFIndex) (r0 : String × Vec)
    (rrest : List (String × Vec)) :
    ∃ idx', IVFIndex.build o idx (r0 :: rrest) = .ok idx' := by
  simp only [IVFIndex.build]
  rw [if_neg (by simp)]
  obtain ⟨km, hkm⟩ := fit_ok o (KMeans.new (max (min idx.n_clusters
    (((r0 :: rrest).map Prod.snd).length / 10)) 1)) r0.2 (rrest.map Prod.snd)
  rw [show (r0 :: rrest).map Prod.snd = r0.2 :: rrest.map Prod.snd from rfl] at hkm ⊢
  rw [hkm]
  exact ⟨_, rfl⟩

end

/-! ## NaN behaviour of the query sorting step (claim C9)

The distances `query` sorts are `f32` values; a NaN can reach the sort (for
instance an embedding stored with a NaN component is left unchanged by
`normalize_l2`, whose guard `norm > 1e-10` is false when the norm is NaN, and
then yields a NaN cosine distance).  For this claim the distance values are
modelled as `Option ℚ` with `none` in the role of NaN: `f32::partial_cmp`
returns `None` exactly when an operand is NaN. -/

abbrev DistF := Option ℚ

/-- `f32::partial_cmp` on distances: `none` iff an operand is NaN
(infinities, which compare normally, are not needed by the claims). -/
def optCmp : DistF → DistF → Option Ordering
  | some a, some b => some (compare a b)
  | _, _ => none

/-- The fields of `SearchResult` relevant to the sorting step. -/
structure SearchResultF where
  id : String
  distance : DistF
  deriving DecidableEq, Repr

/-- The comparator of the `select_nth_unstable_by` partial-selection step
(collection.rs line 390-392): `partial_cmp(..).unwrap_or(Ordering::Equal)` —
a NaN compares as equal to everything. -/
def selectCmp (a b : SearchResultF) : Ordering :=
  (optCmp a.distance b.distance).getD .eq

/-- The comparator of the final `sort_by` calls (collection.rs lines 394,
396 and 440): `partial_cmp(..).unwrap()` — `none` is the panic. -/
def sortCmp (a b : SearchResultF) : Option Ordering :=
  optCmp a.distance b.distance

/-- Insertion into a sorted prefix where every comparison may panic,
modelling `slice::sort_by` (which aborts as soon as the comparator
panics). -/
def insertCmpE (x : SearchResultF) : List SearchResultF → Except String (List SearchResultF)
  | [] => .ok [x]
  | y :: ys =>
    match sortCmp x y with
    | none => .error "called unwrap on a None value"
    | some o => if o = .gt then (insertCmpE x ys).map (y :: ·) else .ok (x :: y :: ys)

/-- The final `sort_by` of the query pipeline as a stable insertion sort in
which a NaN comparison is the panic. -/
def sortResultsE : List SearchResultF → Except String (List SearchResultF)
  | [] => .ok []
  | x :: xs =>
    match sortResultsE xs with
    | .error e => .error e
    | .ok s => insertCmpE x s

/-- Total stable sort by the NaN-tolerant selection comparator (model of the
`select_nth_unstable_by` reordering, up to the unspecified order of
equal-comparing elements). -/
def insertSel (x : SearchResultF) : List SearchResultF → List SearchResultF
  | [] => [x]
  | y :: ys => if selectCmp x y = .gt then y :: insertSel x ys else x :: y :: ys

def sortBySel (rs : List SearchResultF) : List SearchResultF := rs.foldr insertSel []

/-- The selection step of `query_linear` (collection.rs lines 388-398): when
`n_results < len/4`, partial-select, truncate to `n_results` and `sort_by`
the survivors; otherwise `sort_by` everything and truncate. -/
def selectTopK (n_results : ℕ) (rs : List SearchResultF) :
    Except String (List SearchResultF) :=
  if n_results < rs.length / 4 then
    match sortResultsE ((sortBySel rs).take n_results) with
    | .error e => .error e
    | .ok s => .ok s
  else
    match sortResultsE rs with
    | .error e => .error e
    | .ok s => .ok (s.take n_results)

/-- C9 (counterexample): two candidates whose computed distances are NaN
make the final `sort_by` of the selection step panic (`unwrap` of `None`),
so `query` does NOT return normally as the claim states. -/
theorem c9_sort_nan_counterexample :
    selectTopK 2 [⟨"a", none⟩, ⟨"b", none⟩] = .error "called unwrap on a None value" := rfl

/-- C9 (amended): NaN distances are treated as equal to everything only in
the comparator of the PARTIAL-SELECTION step (`unwrap_or(Equal)`); the
comparator of the final `sort_by` calls `unwrap()` and panics on any
comparison involving a NaN, so the sorting step panics — e.g. on a
2-candidate list with one NaN distance — rather than returning normally. -/
theorem c9_nan_comparators (s : String) (r : SearchResultF) :
    selectCmp ⟨s, none⟩ r = .eq ∧ selectCmp r ⟨s, none⟩ = .eq ∧
      sortCmp ⟨s, none⟩ r = none ∧ sortCmp r ⟨s, none⟩ = none ∧
      selectTopK 2 [⟨"a", none⟩, ⟨"b", some 1⟩] = .error "called unwrap on a None value" := by
  obtain ⟨id, d⟩ := r
  cases d <;> simp [selectCmp, sortCmp, optCmp] <;> rfl

/-! ## Collection (src/collection.rs) and persistence round trip (src/storage.rs) -/

noncomputable section

structure CollectionConfig where
  name : String
  dimension : ℕ
  use_ivf : Bool
  n_clusters : ℕ
  deriving DecidableEq, Repr

structure VectorEntry where
  id : String
  embedding : Vec
  metadata : Metadata

structure SearchResult where
  id : String
  distance : ℝ
  metadata : Metadata

/-- The error variants of `error.rs` reachable from the collection
operations (the IO and serialization variants belong to the out-of-scope
persistence implementation). -/
inductive VectorDbError where
  | CollectionNotFound (name : String)
  | CollectionAlreadyExists (name : String)
  | DimensionMismatch (expected actual : ℕ)
  | VectorNotFound (id : String)
  | InvalidConfig (msg : String)
  deriving DecidableEq, Repr

/-- Rust `HashMap::get`, on the association-list model. -/
def assocGet {β : Type} (k : String) : List (String × β) → Option β
  | [] => none
  | (k', v) :: rest => if k' = k then some v else assocGet k rest

/-- Rust `HashMap::insert`: replace the value of an existing key in place,
append a fresh key (the iteration order of the Rust map is unspecified; no
claim depends on it). -/
def assocUpd {β : Type} (k : String) (v : β) : List (String × β) → List (String × β)
  | [] => [(k, v)]
  | (k', v') :: rest => if k' = k then (k, v) :: rest else (k', v') :: assocUpd k v rest

/-- Rust `HashMap::remove`. -/
def assocRemove {β : Type} (k : String) (m : List (String × β)) : List (String × β) :=
  m.filter fun pr => pr.1 ≠ k

/-- The `Collection` struct.  `ivf_index`, `batch_mode`, `last_query_time_ms`
and `total_queries` are `#[serde(skip)]` in the source and reset to their
defaults on deserialization. -/
structure Collection where
  config : CollectionConfig
  vectors : List (String × VectorEntry)
  ivf_index : Option IVFIndex
  needs_rebuild : Bool
  batch_mode : Bool
  modifications_count : ℕ
  last_query_time_ms : ℝ
  total_queries : ℕ

def Collection.new (name : String) (dimension : ℕ) : Collection :=
  { config := { name := name, dimension := dimension, use_ivf := false, n_clusters := 0 },
    vectors := [], ivf_index := none, needs_rebuild := false, batch_mode := false,
    modifications_count := 0, last_query_time_ms := 0, total_queries := 0 }

def Collection.new_with_ivf (name : String) (dimension : ℕ) (n_clusters : ℕ) : Collection :=
  { config := { name := name, dimension := dimension, use_ivf := true,
                n_clusters := n_clusters },
    vectors := [], ivf_index := some (IVFIndex.new n_clusters), needs_rebuild := true,
    batch_mode := false, modifications_count := 0, last_query_time_ms := 0,
    total_queries := 0 }

def Collection.count (c : Collection) : ℕ := c.vectors.length

/-- The per-index loop of `add`: check the dimension, normalize a copy of
the embedding, insert the entry keyed by its id.  On a mismatch the error is
returned with the entries inserted so far kept — the Rust receiver is
`&mut self`, so partial mutations survive the early return; the model
threads the state explicitly. -/
def Collection.addLoop (c : Collection) :
    List String → List Vec → List Metadata → Collection × Option VectorDbError
  | id :: ids, emb :: embs, meta :: metas =>
    if emb.length ≠ c.config.dimension then
      (c, some (.DimensionMismatch c.config.dimension emb.length))
    else
      Collection.addLoop
        { c with vectors := assocUpd id ⟨id, normalize_l2 emb, meta⟩ c.vectors }
        ids embs metas
  | _, _, _ => (c, none)

/-- `add` from `collection.rs`: the two length checks fail before any
mutation, the loop may fail midway, and only a fully successful loop reaches
the `modifications_count` / `needs_rebuild` bookkeeping (which runs only for
IVF collections, with `needs_rebuild` untouched in batch mode). -/
def Collection.add (c : Collection) (ids : List String) (embeddings : List Vec)
    (metadatas : Option (List Metadata)) : Collection × Option VectorDbError :=
  let n := ids.length
  if embeddings.length ≠ n then
    (c, some (.InvalidConfig "ids and embeddings must have the same length"))
  else if (match metadatas with | some ms => ms.length != n | none => false) then
    (c, some (.InvalidConfig "metadatas must have the same length as ids"))
  else
    let metas := match metadatas with | some ms => ms | none => List.replicate n []
    match c.addLoop ids embeddings metas with
    | (c', some e) => (c', some e)
    | (c', none) =>
      if c'.config.use_ivf then
        ({ c' with modifications_count := c'.modifications_count + n,
                   needs_rebuild := if c'.batch_mode then c'.needs_rebuild else true }, none)
      else (c', none)

/-- The per-id loop of `update`: merge the given keys into the existing
entry's metadata (embedding untouched), failing on an unknown id with the
earlier merges kept. -/
def Collection.updateLoop (c : Collection) :
    List String → List Metadata → Collection × Option VectorDbError
  | id :: ids, meta :: metas =>
    match assocGet id c.vectors with
    | none => (c, some (.VectorNotFound id))
    | some entry =>
      let merged : VectorEntry :=
        { entry with
          metadata := meta.foldl (fun m kv => assocUpd kv.1 kv.2 m) entry.metadata }
      Collection.updateLoop { c with vectors := assocUpd id merged c.vectors } ids metas
  | _, _ => (c, none)

def Collection.update (c : Collection) (ids : List String) (metadatas : List Metadata) :
    Collection × Option VectorDbError :=
  if ids.length ≠ metadatas.length then
    (c, some (.InvalidConfig "ids and metadatas must have the same length"))
  else c.updateLoop ids metadatas

/-- `delete` from `collection.rs`: remove each id (silently skipping absent
ones), then the same IVF bookkeeping as `add`. -/
def Collection.delete (c : Collection) (ids : List String) :
    Collection × Option VectorDbError :=
  let c1 := { c with vectors := ids.foldl (fun vs id => assocRemove id vs) c.vectors }
  if c1.config.use_ivf then
    ({ c1 with modifications_count := c1.modifications_count + ids.length,
               needs_rebuild := if c1.batch_mode then c1.needs_rebuild else true }, none)
  else (c1, none)

/-- `rebuild_index` from `collection.rs`: no-op unless
`use_ivf && needs_rebuild`; when the index is present AND the snapshot is
nonempty, rebuild it and clear `needs_rebuild` / `modifications_count` (note
that with an empty snapshot, or a missing index, NOTHING is cleared). -/
def Collection.rebuild_index (o : RandOracle) (c : Collection) : Except String Collection :=
  if !c.config.use_ivf || !c.needs_rebuild then .ok c
  else
    match c.ivf_index with
    | none => .ok c
    | some ivf =>
      let data := c.vectors.map fun pr => (pr.1, pr.2.embedding)
      if data.isEmpty then .ok c
      else
        match ivf.rebuild o data with
        | .error e => .error e
        | .ok ivf' =>
          .ok { c with ivf_index := some ivf', needs_rebuild := false,
                       modifications_count := 0 }

/-- The auto-rebuild threshold `(total as f64 * 0.1).max(10.0) as usize` of
`maybe_rebuild`, in exact rational arithmetic (`as usize` truncates, i.e.
takes the floor of the nonnegative value). -/
def rebuildThreshold (total : ℕ) : ℕ :=
  (⌊max ((total : ℚ) * (1 / 10)) 10⌋).toNat

/-- The threshold as claim C5 states it: `max(10, ⌈0.1·count⌉)`. -/
def claimCeilThreshold (total : ℕ) : ℕ :=
  max 10 (⌈(total : ℚ) * (1 / 10)⌉).toNat

/-- `maybe_rebuild` from `collection.rs`. -/
def Collection.maybe_rebuild (o : RandOracle) (c : Collection) : Except String Collection :=
  if !c.config.use_ivf || !c.needs_rebuild then .ok c
  else
    let total := c.vectors.length
    if total = 0 then .ok c
    else if rebuildThreshold total ≤ c.modifications_count then c.rebuild_index o
    else .ok c

/-- `query_linear` from `collection.rs`: pre-filter the entries, compute the
cosine distances (the `par_iter` fork for >100 entries computes the same
list), then select the `n_results` smallest in ascending order.  Both the
`select_nth_unstable_by` fast path and the sort-then-truncate path yield the
`n_results` smallest sorted ascending; the model uses a stable sort followed
by `take`, which agrees with the code up to the unspecified tie order of the
unstable selection.  The NaN panic of the final `sort_by` is modelled
separately (claim C9). -/
def Collection.query_linear (c : Collection) (normalized_query : Vec) (n_results : ℕ)
    (where_filter : Option WhereFilter) : List SearchResult :=
  let entries : List VectorEntry :=
    match where_filter with
    | some f => (c.vectors.map Prod.snd).filter fun e => matches_filter e.metadata f
    | none => c.vectors.map Prod.snd
  let results := entries.map fun e =>
    ({ id := e.id, distance := cosine_distance normalized_query e.embedding,
       metadata := e.metadata } : SearchResult)
  (sortByKey SearchResult.distance results).take n_results

/-- `query_with_ivf` from `collection.rs`: look the IVF candidates up in the
vector map (silently dropping deleted ids), filter, compute distances, sort
ascending and truncate.  The `unwrap` of the index is guarded by the
`is_built` check at the call site; the unreachable `None` case returns
nothing. -/
def Collection.query_with_ivf (c : Collection) (normalized_query : Vec) (n_results : ℕ)
    (where_filter : Option WhereFilter) : List SearchResult :=
  match c.ivf_index with
  | none => []
  | some ivf =>
    let candidate_ids := ivf.search_candidates normalized_query
    let entries : List VectorEntry :=
      (candidate_ids.filterMap fun id => assocGet id c.vectors).filter
        fun e =>
          match where_filter with
          | some f => matches_filter e.metadata f
          | none => true
    let results := entries.map fun e =>
      ({ id := e.id, distance := cosine_distance normalized_query e.embedding,
         metadata := e.metadata } : SearchResult)
    (sortByKey SearchResult.distance results).take n_results

/-- `query` from `collection.rs`.  The wall-clock time measured for the
telemetry field is abstracted into the `elapsed` parameter.  The result
pairs the final collection state with the Rust `Result`: a dimension
mismatch leaves the state untouched; otherwise `maybe_rebuild` may rebuild
the index (possibly panicking inside k-means, the outer `Except`), the IVF
or linear candidate path runs, the filter is re-applied, and the telemetry
is updated. -/
def Collection.query (o : RandOracle) (elapsed : ℝ) (c : Collection)
    (query_embedding : Vec) (n_results : ℕ) (where_filter : Option WhereFilter) :
    Except String (Collection × Except VectorDbError (List SearchResult)) :=
  if query_embedding.length ≠ c.config.dimension then
    .ok (c, .error (.DimensionMismatch c.config.dimension query_embedding.length))
  else
    match c.maybe_rebuild o with
    | .error e => .error e
    | .ok c1 =>
      let normalized_query := normalize_l2 query_embedding
      let results :=
        if c1.config.use_ivf then
          match c1.ivf_index with
          | some ivf =>
            if ivf.is_built then c1.query_with_ivf normalized_query n_results where_filter
            else c1.query_linear normalized_query n_results where_filter
          | none => c1.query_linear normalized_query n_results where_filter
        else c1.query_linear normalized_query n_results where_filter
      let final :=
        match where_filter with
        | some f => (results.filter fun r => matches_filter r.metadata f).take n_results
        | none => results
      .ok ({ c1 with last_query_time_ms := elapsed, total_queries := c1.total_queries + 1 },
        .ok final)

/-- A successful round trip through `Storage::save_collection` followed by
`Storage::load_collection` (src/storage.rs).  bincode restores every
serialized field faithfully; the `#[serde(skip)]` fields (`ivf_index`,
`batch_mode`, `last_query_time_ms`, `total_queries`) are reset to their
`Default` values on deserialization, and `load_collection` then forces
`needs_rebuild = true` for IVF collections. -/
def save_then_load (c : Collection) : Collection :=
  let deserialized : Collection :=
    { config := c.config, vectors := c.vectors, ivf_index := none,
      needs_rebuild := c.needs_rebuild, batch_mode := false,
      modifications_count := c.modifications_count, last_query_time_ms := 0,
      total_queries := 0 }
  if deserialized.config.use_ivf then { deserialized with needs_rebuild := true }
  else deserialized

/-- A fixed random oracle for concrete evaluations. -/
def o0 : RandOracle := { firstPick := 0, unif := fun _ => 0 }

/-! ### Behaviour of `rebuild_index` (shared helpers) -/

theorem rebuild_index_noop (o : RandOracle) (c : Collection)
    (h : c.config.use_ivf = false ∨ c.needs_rebuild = false) :
    c.rebuild_index o = .ok c := by
  rcases h with h | h <;> simp [Collection.rebuild_index, h]

theorem rebuild_index_stuck (o : RandOracle) (c : Collection)
    (h : c.ivf_index = none ∨ c.vectors = []) :
    c.rebuild_index o = .ok c := by
  simp only [Collection.rebuild_index]
  split
  · rfl
  · rcases h with h | h
    · rw [h]
    · rw [h]
      cases c.ivf_index <;> simp

theorem rebuild_index_clears (o : RandOracle) (c : Collection) (ivf : IVFIndex)
    (h1 : c.config.use_ivf = true) (h2 : c.needs_rebuild = true)
    (hivf : c.ivf_index = some ivf) (hvec : c.vectors ≠ []) :
    ∃ ivf', c.rebuild_index o =
      .ok { c with ivf_index := some ivf', needs_rebuild := false,
                   modifications_count := 0 } := by
  rcases hv : c.vectors with _ | ⟨v0, vrest⟩
  · exact absurd hv hvec
  · obtain ⟨ivf', hb⟩ := build_ok o ivf (v0.1, v0.2.embedding)
      (vrest.map fun pr => (pr.1, pr.2.embedding))
    refine ⟨ivf', ?_⟩
    simp only [Collection.rebuild_index, h1, h2, hivf, hv, IVFIndex.rebuild]
    simp only [List.map_cons] at hb ⊢
    rw [hb]
    simp

/-- C2 (code bug): `ivf_index` is `#[serde(skip)]`, so a collection created
with `new_with_ivf`, saved and loaded back has `use_ivf = true` but
`ivf_index = None` — the IVF-presence invariant of the claim is violated.
Moreover no code path ever re-creates the index: `rebuild_index` silently
does nothing on the loaded collection (its `if let Some` fails), so
`needs_rebuild` stays `true` forever and the claim's "present (empty) IVF
index" is unattainable. -/
theorem c2_load_drops_ivf_index :
    (save_then_load (Collection.new_with_ivf "c" 3 4)).config.use_ivf = true ∧
      (save_then_load (Collection.new_with_ivf "c" 3 4)).ivf_index = none ∧
      (save_then_load (Collection.new_with_ivf "c" 3 4)).needs_rebuild = true ∧
      ∀ o : RandOracle,
        Collection.rebuild_index o (save_then_load (Collection.new_with_ivf "c" 3 4)) =
          .ok (save_then_load (Collection.new_with_ivf "c" 3 4)) := by
  refine ⟨rfl, rfl, rfl, fun o => ?_⟩
  exact rebuild_index_stuck o _ (Or.inl rfl)

/-- C6 (counterexample): a fresh IVF collection holds zero vectors and has
`needs_rebuild = true`; the claim says `rebuild_index` must leave
`needs_rebuild = false` and `modifications_count = 0`, but with an empty
snapshot the code skips the flag-clearing (`if !data.is_empty()`) and
returns the collection unchanged, `needs_rebuild` still `true`. -/
theorem c6_rebuild_empty_counterexample :
    (Collection.new_with_ivf "c" 3 4).config.use_ivf = true ∧
      (Collection.new_with_ivf "c" 3 4).needs_rebuild = true ∧
      Collection.rebuild_index o0 (Collection.new_with_ivf "c" 3 4) =
        .ok (Collection.new_with_ivf "c" 3 4) :=
  ⟨rfl, rfl, rebuild_index_stuck o0 _ (Or.inr rfl)⟩

/-- C6 (amended): when `use_ivf = false` or `needs_rebuild = false`,
`rebuild_index` returns the collection entirely unchanged; when
`use_ivf ∧ needs_rebuild` AND the index is present AND the collection holds
at least one vector, it rebuilds the index and clears `needs_rebuild` and
`modifications_count`; but when the index is absent or the collection holds
ZERO vectors, it returns the collection unchanged (the flags are NOT
cleared, contrary to the original claim). -/
theorem c6_rebuild_index_flags (o : RandOracle) (c : Collection) :
    ((c.config.use_ivf = false ∨ c.needs_rebuild = false) → c.rebuild_index o = .ok c) ∧
      (∀ ivf, c.config.use_ivf = true → c.needs_rebuild = true →
        c.ivf_index = some ivf → c.vectors ≠ [] →
        ∃ ivf', c.rebuild_index o =
          .ok { c with ivf_index := some ivf', needs_rebuild := false,
                       modifications_count := 0 }) ∧
      (c.config.use_ivf = true → c.needs_rebuild = true →
        (c.ivf_index = none ∨ c.vectors = []) → c.rebuild_index o = .ok c) :=
  ⟨rebuild_index_noop o c,
   fun ivf h1 h2 hivf hvec => rebuild_index_clears o c ivf h1 h2 hivf hvec,
   fun _ _ h => rebuild_index_stuck o c h⟩

/-- C6 (witness): the no-op branch evaluated on a non-IVF collection. -/
theorem c6_rebuild_index_flags_witness :
    Collection.rebuild_index o0 (Collection.new "a" 2) = .ok (Collection.new "a" 2) :=
  (c6_rebuild_index_flags o0 (Collection.new "a" 2)).1 (Or.inl rfl)

/-! ### The auto-rebuild trigger of `query` (claim C5) -/

/-- The code's threshold is `max(10, ⌊0.1·total⌋)` — `as usize` truncates
the fractional part instead of rounding it up. -/
theorem rebuildThreshold_eq (total : ℕ) : rebuildThreshold total = max 10 (total / 10) := by
  unfold rebuildThreshold
  have hmax : (⌊max ((total : ℚ) * (1 / 10)) 10⌋ : ℤ) =
      max ⌊((total : ℚ) * (1 / 10))⌋ ⌊(10 : ℚ)⌋ := Int.floor_mono.map_max
  rw [hmax]
  rw [show ((total : ℚ) * (1 / 10)) = ((total : ℤ) : ℚ) / ((10 : ℕ) : ℚ) by push_cast; ring]
  rw [Rat.floor_intCast_div_natCast]
  rw [show ((10 : ℚ)) = ((10 : ℤ) : ℚ) by norm_num, Int.floor_intCast]
  omega

/-- `maybe_rebuild` fires exactly under the code's trigger (with the index
present); when it fires, the flags are cleared and the data and config are
untouched; otherwise the collection is returned unchanged. -/
theorem maybe_rebuild_spec (o : RandOracle) (c : Collection)
    (hivf : c.config.use_ivf = true → c.ivf_index.isSome = true) :
    ∃ c1, c.maybe_rebuild o = .ok c1 ∧
      ((c.config.use_ivf = true ∧ c.needs_rebuild = true ∧ 0 < c.vectors.length ∧
          rebuildThreshold c.vectors.length ≤ c.modifications_count) →
        c1.needs_rebuild = false ∧ c1.modifications_count = 0 ∧
          c1.vectors = c.vectors ∧ c1.config = c.config) ∧
      (¬(c.config.use_ivf = true ∧ c.needs_rebuild = true ∧ 0 < c.vectors.length ∧
          rebuildThreshold c.vectors.length ≤ c.modifications_count) →
        c1 = c) := by
  by_cases h1 : c.config.use_ivf = true
  · by_cases h2 : c.needs_rebuild = true
    · by_cases h3 : c.vectors.length = 0
      · refine ⟨c, ?_, fun ht => absurd ht.2.2.1 (by rw [h3]; omega), fun _ => rfl⟩
        simp only [Collection.maybe_rebuild, h1, h2]
        rw [if_neg (by simp), if_pos h3]
      · by_cases h4 : rebuildThreshold c.vectors.length ≤ c.modifications_count
        · obtain ⟨ivf, hivf'⟩ := Option.isSome_iff_exists.mp (hivf h1)
          obtain ⟨ivf', hreb⟩ := rebuild_index_clears o c ivf h1 h2 hivf'
            (fun hv => h3 (by rw [hv]; rfl))
          refine ⟨{ c with ivf_index := some ivf', needs_rebuild := false,
                           modifications_count := 0 }, ?_,
            fun _ => ⟨rfl, rfl, rfl, rfl⟩,
            fun hn => absurd ⟨h1, h2, Nat.pos_of_ne_zero h3, h4⟩ hn⟩
          simp only [Collection.maybe_rebuild, h1, h2]
          rw [if_neg (by simp), if_neg h3, if_pos h4]
          exact hreb
        · refine ⟨c, ?_, fun ht => absurd ht.2.2.2 h4, fun _ => rfl⟩
          simp only [Collection.maybe_rebuild, h1, h2]
          rw [if_neg (by simp), if_neg h3, if_neg h4]
    · have h2' : c.needs_rebuild = false := by
        revert h2; cases c.needs_rebuild <;> simp
      refine ⟨c, ?_, fun ht => absurd ht.2.1 h2, fun _ => rfl⟩
      simp only [Collection.maybe_rebuild, h2']
      rw [if_pos (by simp)]
  · have h1' : c.config.use_ivf = false := by
      revert h1; cases c.config.use_ivf <;> simp
    refine ⟨c, ?_, fun ht => absurd ht.1 h1, fun _ => rfl⟩
    simp only [Collection.maybe_rebuild, h1']
    rw [if_pos (by simp)]

/-- C5 (amended): on a valid query (matching dimension) against a collection
whose IVF index is present whenever `use_ivf` holds, `query` never panics,
and it triggers an index rebuild if and only if `use_ivf = true`,
`needs_rebuild = true`, `count > 0` and
`modifications_count ≥ max(10, ⌊0.1·count⌋)` — the floor, not the ceiling,
of `0.1·count` (and when the trigger does not hold, `needs_rebuild` and
`modifications_count` are left unchanged). -/
theorem c5_query_rebuild_trigger (o : RandOracle) (elapsed : ℝ) (c : Collection)
    (q : Vec) (k : ℕ) (wf : Option WhereFilter)
    (hdim : q.length = c.config.dimension)
    (hivf : c.config.use_ivf = true → c.ivf_index.isSome = true) :
    ∃ c' res, c.query o elapsed q k wf = .ok (c', res) ∧
      ((c.config.use_ivf = true ∧ c.needs_rebuild = true ∧ 0 < c.vectors.length ∧
          rebuildThreshold c.vectors.length ≤ c.modifications_count) →
        c'.needs_rebuild = false ∧ c'.modifications_count = 0) ∧
      (¬(c.config.use_ivf = true ∧ c.needs_rebuild = true ∧ 0 < c.vectors.length ∧
          rebuildThreshold c.vectors.length ≤ c.modifications_count) →
        c'.needs_rebuild = c.needs_rebuild ∧
          c'.modifications_count = c.modifications_count) := by
  obtain ⟨c1, hmb, htrig, hntrig⟩ := maybe_rebuild_spec o c hivf
  simp only [Collection.query, hmb]
  rw [if_neg (fun h => h hdim)]
  refine ⟨_, _, rfl, fun ht => ?_, fun hn => ?_⟩
  · exact ⟨(htrig ht).1, (htrig ht).2.1⟩
  · rw [hntrig hn]
    exact ⟨rfl, rfl⟩

/-- C5 (witness): the amended theorem evaluated on a fresh non-IVF
collection (the trigger does not hold; the flags are unchanged). -/
theorem c5_query_rebuild_trigger_witness :
    ∃ c' res, (Collection.new "w" 0).query o0 0 [] 1 none = .ok (c', res) ∧
      (((Collection.new "w" 0).config.use_ivf = true ∧
          (Collection.new "w" 0).needs_rebuild = true ∧
          0 < (Collection.new "w" 0).vectors.length ∧
          rebuildThreshold (Collection.new "w" 0).vectors.length ≤
            (Collection.new "w" 0).modifications_count) →
        c'.needs_rebuild = false ∧ c'.modifications_count = 0) ∧
      (¬((Collection.new "w" 0).config.use_ivf = true ∧
          (Collection.new "w" 0).needs_rebuild = true ∧
          0 < (Collection.new "w" 0).vectors.length ∧
          rebuildThreshold (Collection.new "w" 0).vectors.length ≤
            (Collection.new "w" 0).modifications_count) →
        c'.needs_rebuild = (Collection.new "w" 0).needs_rebuild ∧
          c'.modifications_count = (Collection.new "w" 0).modifications_count) :=
  c5_query_rebuild_trigger o0 0 (Collection.new "w" 0) [] 1 none rfl
    (fun h => absurd h (by decide))

/-- A reachable state exercising the threshold boundary: 105 stored vectors
(dimension 0 keeps the data small), `modifications_count = 11`,
`needs_rebuild = true`, and `ivf_index = none` — exactly the shape a
populated IVF collection has after a save/load round trip (claim C2)
followed by mutations. -/
def c105 : Collection :=
  { config := { name := "c", dimension := 0, use_ivf := true, n_clusters := 4 },
    vectors := (List.range 105).map fun i =>
      (toString i, { id := toString i, embedding := [], metadata := [] }),
    ivf_index := none, needs_rebuild := true, batch_mode := false,
    modifications_count := 11, last_query_time_ms := 0, total_queries := 0 }

/-- C5 (counterexample): on `c105` every condition of the claim holds —
`use_ivf`, `needs_rebuild`, `count = 105 > 0` and
`modifications_count = 11 ≥ max(10, ⌈0.1·105⌉) = 11` — so the claim says the
query triggers a rebuild; but the query returns with `needs_rebuild` still
`true` and `modifications_count` still `11` (the `if let Some` inside
`rebuild_index` fails on the absent index). -/
theorem c5_query_threshold_counterexample :
    c105.config.use_ivf = true ∧ c105.needs_rebuild = true ∧ 0 < c105.count ∧
      claimCeilThreshold c105.count ≤ c105.modifications_count ∧
      Except.map (fun pr => (pr.1.needs_rebuild, pr.1.modifications_count))
        (c105.query o0 0 [] 1 none) = .ok (true, 11) := by
  have hlen : c105.vectors.length = 105 := by
    simp [c105]
  have hcount : c105.count = 105 := hlen
  have hceil : claimCeilThreshold 105 = 11 := by
    unfold claimCeilThreshold
    rw [show (((105 : ℕ) : ℚ) * (1 / 10)) = (21 : ℚ) / 2 by push_cast; norm_num]
    rw [show (⌈(21 : ℚ) / 2⌉ : ℤ) = 11 by rw [Int.ceil_eq_iff]; norm_num]
    rfl
  have hthr : rebuildThreshold 105 = 10 := by
    rw [rebuildThreshold_eq]
    rfl
  have hmb : c105.maybe_rebuild o0 = .ok c105 := by
    simp only [Collection.maybe_rebuild]
    rw [if_neg (by simp [c105])]
    rw [hlen]
    rw [if_neg (by norm_num), if_pos (by rw [hthr]; norm_num [c105])]
    exact rebuild_index_stuck o0 c105 (Or.inl rfl)
  refine ⟨rfl, rfl, by rw [hcount]; norm_num,
    by rw [hcount, hceil]; exact Nat.le_refl 11, ?_⟩
  simp only [Collection.query, hmb]
  rfl

/-! ### Dimension and normalization invariant (claim C7) -/

/-- The amended per-entry invariant: length `D`, and L2 norm either at most
`1e-10` (the vector was below `normalize_l2`'s guard and is stored
unchanged) or within `1e-5` of 1. -/
def EntryOk (dimension : ℕ) (e : VectorEntry) : Prop :=
  e.embedding.length = dimension ∧
    (l2norm e.embedding ≤ 1e-10 ∨ |l2norm e.embedding - 1| ≤ 1e-5)

def NormInvariant (c : Collection) : Prop :=
  ∀ pr ∈ c.vectors, EntryOk c.config.dimension pr.2

/-- The per-entry invariant exactly as claim C7 states it: norm 0 or within
`1e-5` of 1. -/
def ClaimEntryOk (dimension : ℕ) (e : VectorEntry) : Prop :=
  e.embedding.length = dimension ∧
    (l2norm e.embedding = 0 ∨ |l2norm e.embedding - 1| ≤ 1e-5)

theorem entryOk_normalize (dimension : ℕ) (id : String) (emb : Vec) (meta : Metadata)
    (hlen : emb.length = dimension) :
    EntryOk dimension ⟨id, normalize_l2 emb, meta⟩ := by
  refine ⟨by rw [normalize_l2_length]; exact hlen, ?_⟩
  rcases l2norm_normalize_l2 emb with ⟨_, h1⟩ | ⟨h, h1⟩
  · right
    show |l2norm (normalize_l2 emb) - 1| ≤ 1e-5
    rw [h1]
    norm_num
  · left
    show l2norm (normalize_l2 emb) ≤ 1e-10
    rw [h1]
    exact h

theorem mem_assocUpd {β : Type} (k : String) (v : β) (m : List (String × β)) :
    ∀ pr ∈ assocUpd k v m, pr = (k, v) ∨ pr ∈ m := by
  induction m with
  | nil =>
    intro pr hpr
    simp only [assocUpd, List.mem_singleton] at hpr
    exact Or.inl hpr
  | cons kv rest ih =>
    intro pr hpr
    obtain ⟨k', v'⟩ := kv
    simp only [assocUpd] at hpr
    by_cases hk : k' = k
    · rw [if_pos hk] at hpr
      rcases List.mem_cons.1 hpr with h | h
      · exact Or.inl h
      · exact Or.inr (List.mem_cons_of_mem _ h)
    · rw [if_neg hk] at hpr
      rcases List.mem_cons.1 hpr with h | h
      · exact Or.inr (h ▸ List.mem_cons_self _ _)
      · rcases ih pr h with h2 | h2
        · exact Or.inl h2
        · exact Or.inr (List.mem_cons_of_mem _ h2)

theorem assocGet_mem {β : Type} {k : String} {v : β} :
    ∀ {m : List (String × β)}, assocGet k m = some v → (k, v) ∈ m := by
  intro m
  induction m with
  | nil => intro h; exact absurd h (by simp [assocGet])
  | cons kv rest ih =>
    intro h
    obtain ⟨k', v'⟩ := kv
    simp only [assocGet] at h
    by_cases hk : k' = k
    · rw [if_pos hk] at h
      obtain rfl : v' = v := Option.some.inj h
      exact hk ▸ List.mem_cons_self _ _
    · rw [if_neg hk] at h
      exact List.mem_cons_of_mem _ (ih h)

theorem addLoop_norm_invariant :
    ∀ (ids : List String) (embs : List Vec) (metas : List Metadata) (c : Collection),
      NormInvariant c → NormInvariant (c.addLoop ids embs metas).1 := by
  intro ids
  induction ids with
  | nil => intro embs metas c h; simpa [Collection.addLoop] using h
  | cons id ids ih =>
    intro embs metas c h
    cases embs with
    | nil => simpa [Collection.addLoop] using h
    | cons emb embs =>
      cases metas with
      | nil => simpa [Collection.addLoop] using h
      | cons meta metas =>
        simp only [Collection.addLoop]
        by_cases hd : emb.length ≠ c.config.dimension
        · rw [if_pos hd]; exact h
        · rw [if_neg hd]
          apply ih
          intro pr hpr
          rcases mem_assocUpd _ _ _ pr hpr with h2 | h2
          · rw [h2]
            exact entryOk_normalize _ id emb meta (not_ne_iff.mp hd)
          · exact h pr h2

theorem updateLoop_norm_invariant :
    ∀ (ids : List String) (metas : List Metadata) (c : Collection),
      NormInvariant c → NormInvariant (c.updateLoop ids metas).1 := by
  intro ids
  induction ids with
  | nil => intro metas c h; simpa [Collection.updateLoop] using h
  | cons id ids ih =>
    intro metas c h
    cases metas with
    | nil => simpa [Collection.updateLoop] using h
    | cons meta metas =>
      simp only [Collection.updateLoop]
      cases hget : assocGet id c.vectors with
      | none => exact h
      | some entry =>
        apply ih
        intro pr hpr
        rcases mem_assocUpd _ _ _ pr hpr with h2 | h2
        · rw [h2]
          exact h (id, entry) (assocGet_mem hget)
        · exact h pr h2

theorem foldl_assocRemove_subset {β : Type} :
    ∀ (ids : List String) (m : List (String × β)) (pr : String × β),
      pr ∈ ids.foldl (fun vs id => assocRemove id vs) m → pr ∈ m := by
  intro ids
  induction ids with
  | nil => intro m pr h; simpa using h
  | cons id ids ih =>
    intro m pr h
    have := ih (assocRemove id m) pr (by simpa using h)
    exact (List.mem_filter.1 this).1

/-- C7 (amended): from any state satisfying the amended invariant — every
stored embedding has length D and L2 norm in `[0, 1e-10] ∪ [1−1e-5, 1+1e-5]`
— the state after `add` (even a failed one), after `update` and after
`delete` satisfies it again.  An input vector whose norm exceeds the `1e-10`
guard is stored exactly L2-normalized; one at or below the guard is stored
unchanged (and keeps its tiny norm, which is why the claim's band
`{0} ∪ [1−1e-5, 1+1e-5]` had to be widened). -/
theorem c7_norm_invariant (c : Collection) (ids : List String) (embs : List Vec)
    (metas : Option (List Metadata)) (mids : List String) (mmetas : List Metadata)
    (dids : List String) (h : NormInvariant c) :
    NormInvariant (c.add ids embs metas).1 ∧
      NormInvariant (c.update mids mmetas).1 ∧
      NormInvariant (c.delete dids).1 ∧
      normalize_l2 [3, 4, 0] = [(3 : ℝ) / 5, 4 / 5, 0] := by
  refine ⟨?_, ?_, ?_, ?_⟩
  · cases metas with
    | none =>
      simp only [Collection.add]
      by_cases h1 : embs.length ≠ ids.length
      · rw [if_pos h1]; exact h
      · rw [if_neg h1, if_neg (by simp)]
        have hinv := addLoop_norm_invariant ids embs (List.replicate ids.length []) c h
        rcases hL : c.addLoop ids embs (List.replicate ids.length []) with ⟨c', err⟩
        rw [hL] at hinv
        cases err with
        | some e => exact hinv
        | none =>
          split
          · rename_i heq
            simp at heq
          · rename_i heq
            injection heq with hc he
            subst hc
            split <;> exact hinv
    | some ms =>
      simp only [Collection.add]
      by_cases h1 : embs.length ≠ ids.length
      · rw [if_pos h1]; exact h
      · rw [if_neg h1]
        by_cases h2 : (ms.length != ids.length) = true
        · rw [if_pos h2]; exact h
        · rw [if_neg h2]
          have hinv := addLoop_norm_invariant ids embs ms c h
          rcases hL : c.addLoop ids embs ms with ⟨c', err⟩
          rw [hL] at hinv
          cases err with
          | some e => exact hinv
          | none =>
            split
            · rename_i heq
              simp at heq
            · rename_i heq
              injection heq with hc he
              subst hc
              split <;> exact hinv
  · simp only [Collection.update]
    by_cases h1 : mids.length ≠ mmetas.length
    · rw [if_pos h1]; exact h
    · rw [if_neg h1]
      exact updateLoop_norm_invariant mids mmetas c h
  · simp only [Collection.delete]
    split
    · intro pr hpr
      exact h pr (foldl_assocRemove_subset dids c.vectors pr hpr)
    · intro pr hpr
      exact h pr (foldl_assocRemove_subset dids c.vectors pr hpr)
  · have hsq : sq_sum [(3 : ℝ), 4, 0] = 25 := by
      simp [sq_sum]
      norm_num
    simp only [normalize_l2, hsq]
    rw [show Real.sqrt 25 = 5 by
      rw [show (25 : ℝ) = 5 ^ 2 by norm_num, Real.sqrt_sq (by norm_num)]]
    rw [if_pos (by norm_num)]
    norm_num

/-- C7 (witness): the amended invariant evaluated through add, update and
delete on a fresh collection. -/
theorem c7_norm_invariant_witness :
    NormInvariant ((Collection.new "a" 3).add [] [] none).1 ∧
      NormInvariant ((Collection.new "a" 3).update [] []).1 ∧
      NormInvariant ((Collection.new "a" 3).delete []).1 ∧
      normalize_l2 [3, 4, 0] = [(3 : ℝ) / 5, 4 / 5, 0] :=
  c7_norm_invariant (Collection.new "a" 3) [] [] none [] [] []
    (by intro pr hpr; exact absurd hpr (by simp [Collection.new]))

/-- C7 (counterexample): the vector `[1e-11, 0, 0]` has norm `1e-11`, below
the `1e-10` guard of `normalize_l2`, so a successful `add` stores it
UNCHANGED; its stored norm is neither 0 nor within `1e-5` of 1, refuting the
claim's band `{0} ∪ [1 − 1e-5, 1 + 1e-5]`. -/
theorem c7_norm_band_counterexample :
    ((Collection.new "t" 3).add ["x"] [[1e-11, 0, 0]] none).2 = none ∧
      ((Collection.new "t" 3).add ["x"] [[1e-11, 0, 0]] none).1.vectors =
        [("x", ⟨"x", [1e-11, 0, 0], []⟩)] ∧
      ¬ ClaimEntryOk 3 ⟨"x", [(1e-11 : ℝ), 0, 0], []⟩ := by
  have hsq : sq_sum [(1e-11 : ℝ), 0, 0] = ((1e-11 : ℝ)) ^ 2 := by
    simp [sq_sum]
    norm_num
  have hnorm : l2norm [(1e-11 : ℝ), 0, 0] = 1e-11 := by
    rw [l2norm, hsq, Real.sqrt_sq (by norm_num)]
  have hnn : normalize_l2 [(1e-11 : ℝ), 0, 0] = [(1e-11 : ℝ), 0, 0] := by
    simp only [normalize_l2]
    rw [if_neg]
    rw [hsq, Real.sqrt_sq (by norm_num)]
    norm_num
  refine ⟨?_, ?_, ?_⟩
  · simp [Collection.add, Collection.addLoop, Collection.new, List.replicate]
  · simp [Collection.add, Collection.addLoop, Collection.new, List.replicate, assocUpd, hnn]
  · intro hcl
    rcases hcl.2 with hz | hb
    · rw [hnorm] at hz
      norm_num at hz
    · rw [hnorm] at hb
      have habs : |(1e-11 : ℝ) - 1| = 1 - 1e-11 := by
        rw [abs_of_neg (by norm_num)]
        ring
      rw [habs] at hb
      norm_num at hb

/-! ### Non-atomicity of `add` on a mid-loop dimension error (claim C10) -/

/-- The vector map after the first `i` iterations of `add`'s loop: each of
the first `i` entries inserted in order, keyed by its id, with its embedding
L2-normalized (observable for claim C10). -/
def insertedPrefix :
    ℕ → List String → List Vec → List Metadata →
      List (String × VectorEntry) → List (String × VectorEntry)
  | 0, _, _, _, vs => vs
  | i + 1, id :: ids, emb :: embs, meta :: metas, vs =>
    insertedPrefix i ids embs metas (assocUpd id ⟨id, normalize_l2 emb, meta⟩ vs)
  | _ + 1, _, _, _, vs => vs

theorem addLoop_partial :
    ∀ (i : ℕ) (ids : List String) (embs : List Vec) (metas : List Metadata)
      (c : Collection), i < ids.length → i < embs.length → i < metas.length →
      (∀ j, j < i → (embs.getD j []).length = c.config.dimension) →
      (embs.getD i []).length ≠ c.config.dimension →
      c.addLoop ids embs metas =
        ({ c with vectors := insertedPrefix i ids embs metas c.vectors },
          some (.DimensionMismatch c.config.dimension (embs.getD i []).length)) := by
  intro i
  induction i with
  | zero =>
    intro ids embs metas c hid hemb hmeta _ hbad
    rcases ids with _ | ⟨id, ids⟩
    · simp at hid
    rcases embs with _ | ⟨emb, embs⟩
    · simp at hemb
    rcases metas with _ | ⟨meta, metas⟩
    · simp at hmeta
    have hbad' : emb.length ≠ c.config.dimension := by simpa using hbad
    simp only [Collection.addLoop, if_pos hbad']
    rfl
  | succ i ih =>
    intro ids embs metas c hid hemb hmeta hpre hbad
    rcases ids with _ | ⟨id, ids⟩
    · simp at hid
    rcases embs with _ | ⟨emb, embs⟩
    · simp at hemb
    rcases metas with _ | ⟨meta, metas⟩
    · simp at hmeta
    have hgood : ¬(emb.length ≠ c.config.dimension) := by
      have := hpre 0 (Nat.succ_pos i)
      simpa using this
    simp only [Collection.addLoop, if_neg hgood]
    have hrec := ih ids embs metas
      { c with vectors := assocUpd id ⟨id, normalize_l2 emb, meta⟩ c.vectors }
      (by simpa using hid) (by simpa using hemb) (by simpa using hmeta)
      (fun j hj => by simpa using hpre (j + 1) (Nat.succ_lt_succ hj))
      (by simpa using hbad)
    rw [hrec]
    rfl

/-- C10 (confirmed): when `add` fails with `DimensionMismatch` at index
`i > 0` (array lengths agreeing, the first `i` embeddings of the right
dimension, the `i`-th not), the entries for indices `0..i` have already been
inserted, L2-normalized, into the vector map, while `modifications_count`,
`needs_rebuild` and every other field keep their pre-call values. -/
theorem c10_add_partial_on_error (c : Collection) (ids : List String) (embs : List Vec)
    (metas : List Metadata) (i : ℕ)
    (hlen : embs.length = ids.length) (hmlen : metas.length = ids.length)
    (hi : i < ids.length)
    (hpre : ∀ j, j < i → (embs.getD j []).length = c.config.dimension)
    (hbad : (embs.getD i []).length ≠ c.config.dimension) :
    c.add ids embs (some metas) =
      ({ c with vectors := insertedPrefix i ids embs metas c.vectors },
        some (.DimensionMismatch c.config.dimension (embs.getD i []).length)) := by
  simp only [Collection.add]
  rw [if_neg (by omega)]
  rw [if_neg (by simp [hmlen])]
  have hL := addLoop_partial i ids embs metas c hi (by omega) (by omega) hpre hbad
  rw [hL]

/-- C10 (witness): a two-row `add` on a dimension-2 collection whose second
embedding has length 3 inserts the first row (normalized) and reports the
mismatch, leaving the counters unchanged. -/
theorem c10_add_partial_on_error_witness :
    (Collection.new "w" 2).add ["a", "b"] [[3, 4], [1, 2, 3]] (some [[], []]) =
      ({ Collection.new "w" 2 with
          vectors := insertedPrefix 1 ["a", "b"] [[3, 4], [1, 2, 3]] [[], []]
            (Collection.new "w" 2).vectors },
        some (.DimensionMismatch (Collection.new "w" 2).config.dimension
          (([[3, 4], [1, 2, 3]] : List Vec).getD 1 []).length)) :=
  c10_add_partial_on_error (Collection.new "w" 2) ["a", "b"] [[3, 4], [1, 2, 3]]
    [[], []] 1 rfl rfl (by norm_num)
    (by intro j hj; interval_cases j; rfl)
    (by intro hcon; simp [Collection.new] at hcon)

end

end VectorDb
